import Mathlib

/-!
Verification development for the GitSmart control panel (Python sources
`app.py` and `utils/github_api.py`).  The definitions below are shallow
embeddings of the Python functions: HTTP responses from GitHub are
modelled as explicit "world" records supplying, per branch name or file
path, the data the remote service would return; the Python control flow
is translated statement by statement.  A raised transport exception in
the Python code escapes to each route's outermost `except` handler and
produces a generic 500 response; the resolver models are therefore
stated over worlds in which every outbound call returns (the exception
path is outside the resolver and does not interact with the fallback
logic being verified).
-/

namespace GitSmart

/-- Python `str.strip()` on the request arguments: drop leading and
trailing whitespace characters. -/
def strip (s : String) : String :=
  ⟨((s.data.dropWhile Char.isWhitespace).reverse.dropWhile Char.isWhitespace).reverse⟩

/-- Python truthiness of an optional string: `None` and `""` are falsy. -/
def truthyOpt : Option String → Bool
  | some s => s != ""
  | none => false

/-- Normalise an optional string by Python truthiness: a present but
empty string collapses to `none` (used for `if sha:`‑style checks). -/
def normB : Option String → Option String
  | some s => if s = "" then none else some s
  | none => none

/-!
## `GitHubAPI.get_file_text` (utils/github_api.py, lines 102–120)

The method returns one of three shapes that the caller in `app.py`
distinguishes: a text string (success), `None` (no usable content, or
the error body failed to parse), or a dict `{"error": msg}`.
-/

/-- Possible return values of `get_file_text`: a decoded string,
Python `None`, or an error dict `{"error": msg}`. -/
inductive GftResult where
  | text (s : String)
  | noneVal
  | err (msg : String)
deriving DecidableEq

/-- The HTTP response observed by `get_file_text` for one
`GET /repos/{owner}/{repo}/contents/{path}?ref=...` call.
`jsonOk` records whether `r.json()` parses in the non‑200 branch
(in the 200 branch the source calls `r.json()` unguarded, so a parse
failure there escapes the function; the model covers returning calls). -/
structure ContentsResp where
  status : Nat
  jsonOk : Bool
  encoding : Option String
  content : Option String
  message : Option String
  rawBody : String

/-- Shallow embedding of `GitHubAPI.get_file_text`.  `decode` models
`base64.b64decode(...).decode("utf-8", errors="replace")`, with `none`
standing for a raised exception (the source then falls back to
returning the undecoded `content` field). -/
def get_file_text (decode : String → Option String) (r : ContentsResp) : GftResult :=
  if r.status = 200 then
    if r.encoding = some "base64" ∧ r.content.isSome then
      match r.content with
      | some c =>
        match decode c with
        | some t => .text t
        | none => .text c
      | none => .noneVal
    else
      match r.content with
      | some c => .text c
      | none => .noneVal
  else
    if r.jsonOk then .err (r.message.getD r.rawBody) else .noneVal

/-!
## The branch‑fallback resolver (`api_get_file`, app.py lines 329–370)

The Python variable `content` is `None`, a string, or — in the corner
case of an error dict whose `error` value is falsy — the dict itself
(the guard is `isinstance(c, dict) and c.get("error")`).  `Content`
captures the non‑`None` possibilities.
-/

/-- A non‑`None` value of the Python local `content`. -/
inductive Content where
  | text (s : String)
  | errDict (m : String)
deriving DecidableEq

/-- One structured attempt as `api_get_file` post‑processes it:
`if isinstance(c, dict) and c.get("error"): content = None else: content = c`.
An error dict with a truthy message is discarded; `None` stays `None`;
anything else (a string, or an error dict with falsy message) is kept. -/
def attemptResult : GftResult → Option Content
  | .text s => some (.text s)
  | .noneVal => none
  | .err m => if m = "" then some (.errDict m) else none

/-- The remote behaviour visible to one `api_get_file` call:
`fetch b` is what `gh.get_file_text(owner, repo, path, ref=b)` returns,
`defaultBranch` is `repo_info.get("default_branch")` (absent key, or a
failed metadata call that yielded `{"message": ...}`, is `none`), and
`raw b` is the raw‑content GET for branch `b` — `none` models a raised
request exception (the raw loop catches it and continues), otherwise
the status code and body text. -/
structure FileWorld where
  fetch : String → GftResult
  defaultBranch : Option String
  raw : String → Option (Nat × String)

/-- Body of the `for b in ("main", "master")` loop in `api_get_file`:
`if content is None and b not in tried: tried.append(b); attempt`. -/
def tryRef (w : FileWorld) (st : Option Content × List String) (b : String) :
    Option Content × List String :=
  match st with
  | (none, t) => if b ∈ t then (none, t) else (attemptResult (w.fetch b), t ++ [b])
  | st => st

/-- The raw‑content fallback loop: iterate the given branch names in
order, stop at the first HTTP 200 response; a non‑200 status or a
raised exception moves on to the next branch. -/
def rawPhase (raw : String → Option (Nat × String)) : List String → Option String
  | [] => none
  | b :: bs =>
    match raw b with
    | some (st, body) => if st = 200 then some body else rawPhase raw bs
    | none => rawPhase raw bs

/-- Lines 332–338 of app.py: `if branch:` attempt the branch hint
(the hint is truthy when present and non‑empty). -/
def hintPhase (w : FileWorld) (branch : Option String) : Option Content × List String :=
  match branch with
  | some b => if b = "" then (none, []) else (attemptResult (w.fetch b), [b])
  | none => (none, [])

/-- Lines 339–348 of app.py: `if content is None:` query the repo
metadata and attempt the default branch when it is truthy and untried. -/
def defaultPhase (w : FileWorld) (st : Option Content × List String) :
    Option Content × List String :=
  match st with
  | (none, t) =>
    match w.defaultBranch with
    | some db => if db ≠ "" ∧ db ∉ t then (attemptResult (w.fetch db), t ++ [db]) else (none, t)
    | none => (none, t)
  | s => s

/-- Shallow embedding of the resolution core of `api_get_file`
(app.py lines 330–367): the optional branch hint, then the default
branch (if truthy and untried), then `"main"` and `"master"` (each if
untried), each attempt skipped once `content` is set; finally the raw
fallback over `tried or ["main"]`.  Returns the final `content` and the
`tried` list (each `tried` entry corresponds to exactly one
`gh.get_file_text` call in the source). -/
def resolveFile (w : FileWorld) (branch : Option String) : Option Content × List String :=
  let st1 := defaultPhase w (hintPhase w branch)
  let st3 := tryRef w (tryRef w st1 "main") "master"
  match st3 with
  | (none, t) => ((rawPhase w.raw (if t = [] then ["main"] else t)).map Content.text, t)
  | s => s

/-!
## The `/api/get_file` route wrapper (app.py lines 318–370)
-/

/-- Request‑side data of one `/api/get_file` call: the `owner`, `repo`,
`path`, `branch` query arguments (absent `owner` is `none`; the others
default to `""`), the session username, and the session PAT (`none`
when the `"pat"` key is absent from the session). -/
structure GetFileReq where
  ownerArg : Option String
  sessionUser : Option String
  pat : Option String
  repo : String
  path : String
  branchArg : String

/-- Python `request.args.get("owner") or session.get("username")`. -/
def effOwner (req : GetFileReq) : Option String :=
  match normB req.ownerArg with
  | some o => some o
  | none => req.sessionUser

/-- Responses of `/api/get_file`, one constructor per `return` site. -/
inductive GetFileResp where
  | badRequest
  | noClient
  | ok (path : String) (content : Content)
  | notFound (tried : List String)
deriving DecidableEq

/-- HTTP status code attached to each `/api/get_file` response. -/
def GetFileResp.status : GetFileResp → Nat
  | .badRequest => 400
  | .noClient => 500
  | .ok _ _ => 200
  | .notFound _ => 404

/-- The boolean `success` flag of the JSON envelope. -/
def GetFileResp.success : GetFileResp → Bool
  | .ok _ _ => true
  | _ => false

/-- The `error` field of the JSON envelope (absent on success). -/
def GetFileResp.errMsg : GetFileResp → Option String
  | .badRequest => some "owner, repo, path required"
  | .noClient => some "GitHub client unavailable"
  | .notFound _ => some "File not found on branches tried"
  | .ok _ _ => none

/-- Python `request.args.get("branch", "").strip() or None`. -/
def hintOf (branchArg : String) : Option String :=
  if strip branchArg = "" then none else some (strip branchArg)

/-- Shallow embedding of the `/api/get_file` route: argument
validation (400), `get_gh()` availability — `None` exactly when the
session PAT is absent or empty — (500), then the resolver; exhaustion
yields the 404 response carrying `tried`. -/
def api_get_file (req : GetFileReq) (w : FileWorld) : GetFileResp :=
  let repo := strip req.repo
  let path := strip req.path
  if truthyOpt (effOwner req) = false ∨ repo = "" ∨ path = "" then .badRequest
  else if truthyOpt req.pat = false then .noClient
  else
    match resolveFile w (hintOf req.branchArg) with
    | (some c, _) => .ok path c
    | (none, tried) => .notFound tried

/-- Replace the structured fetch result of one branch (used to state
that a no‑content 200 behaves exactly like an explicit failure). -/
def setFetch (w : FileWorld) (b : String) (g : GftResult) : FileWorld :=
  ⟨fun x => if x = b then g else w.fetch x, w.defaultBranch, w.raw⟩

/-!
## The `/api/repos` route (app.py lines 123–149)

The per‑repo field extraction loop is abstracted: `repoNames` stands
for the list returned by `gh.get_repos()`, passed through to the
success payload.
-/

/-- Responses of `/api/repos`, one constructor per `return` site. -/
inductive ReposResp where
  | unauthorized
  | noClient
  | ok (repos : List String)
deriving DecidableEq

/-- HTTP status code of each `/api/repos` response. -/
def ReposResp.status : ReposResp → Nat
  | .unauthorized => 401
  | .noClient => 500
  | .ok _ => 200

/-- The boolean `success` flag of the `/api/repos` envelope. -/
def ReposResp.success : ReposResp → Bool
  | .ok _ => true
  | _ => false

/-- The `error` field of the `/api/repos` envelope. -/
def ReposResp.errMsg : ReposResp → Option String
  | .unauthorized => some "Unauthorized"
  | .noClient => some "GitHub client unavailable"
  | .ok _ => none

/-- Shallow embedding of `/api/repos`: 401 when the `"pat"` session key
is absent, 500 when `get_gh()` yields no client (empty PAT), otherwise
the normalised repo list with success `true`. -/
def api_repos (pat : Option String) (repoNames : List String) : ReposResp :=
  match pat with
  | none => .unauthorized
  | some p => if p = "" then .noClient else .ok repoNames

/-!
## The `/api/list_files` route (app.py lines 274–315)

The tree/contents normalisation is abstracted: `files` stands for the
`candidate_files` list assembled from the upstream response (an
upstream failure yields an empty list, still a success envelope).
-/

/-- Responses of `/api/list_files`. -/
inductive ListFilesResp where
  | badRequest
  | ok (files : List String)
deriving DecidableEq

/-- HTTP status code of each `/api/list_files` response. -/
def ListFilesResp.status : ListFilesResp → Nat
  | .badRequest => 400
  | .ok _ => 200

/-- The boolean `success` flag of the `/api/list_files` envelope. -/
def ListFilesResp.success : ListFilesResp → Bool
  | .ok _ => true
  | _ => false

/-- The `error` field of the `/api/list_files` envelope. -/
def ListFilesResp.errMsg : ListFilesResp → Option String
  | .badRequest => some "owner and repo required"
  | .ok _ => none

/-- Shallow embedding of `/api/list_files`: the owner falls back from
the query argument to the session username by Python truthiness; a
falsy owner or repo is a 400; everything else is a success envelope
(requests without a session are served, with `gh = None`). -/
def api_list_files (ownerArg sessionUser : Option String) (repoArg : String)
    (files : List String) : ListFilesResp :=
  let owner : Option String :=
    match normB ownerArg with
    | some o => some o
    | none => sessionUser
  if truthyOpt owner = false ∨ strip repoArg = "" then .badRequest else .ok files

/-!
## The `/api/create_repo` route (app.py lines 152–192)
-/

/-- Remote behaviour visible to one `/api/create_repo` call.
`infoRaises` models `gh.get_repo_info` raising (caught, `info = None`);
`infoOk` models its HTTP status being 200/201 (the repo exists, so the
JSON is a truthy repo object with no `message` key); `infoMessage` is
`r.text`, stored under `"message"`, when the status is anything else;
`createError` is the error message from `gh.create_repo` (`none` for a
successful creation; a falsy response is folded into the source's
generic message).  The post‑creation README/LICENSE/workflow calls are
inside a `try` whose failures are swallowed, and do not affect the
response. -/
structure CreateRepoWorld where
  infoRaises : Bool
  infoOk : Bool
  infoMessage : String
  createError : Option String

/-- Responses of `/api/create_repo`, one constructor per `return`. -/
inductive CreateResp where
  | unauthorized
  | badName
  | noClient
  | alreadyExists (name : String)
  | createFailed (msg : String)
  | created (name : String)
deriving DecidableEq

/-- HTTP status code of each `/api/create_repo` response; note the
source returns the already‑exists error envelope with status 200. -/
def CreateResp.status : CreateResp → Nat
  | .unauthorized => 401
  | .badName => 400
  | .noClient => 500
  | .alreadyExists _ => 200
  | .createFailed _ => 400
  | .created _ => 200

/-- The boolean `success` flag of the `/api/create_repo` envelope. -/
def CreateResp.success : CreateResp → Bool
  | .created _ => true
  | _ => false

/-- The `error` field of the `/api/create_repo` envelope. -/
def CreateResp.errMsg : CreateResp → Option String
  | .unauthorized => some "Unauthorized"
  | .badName => some "name required"
  | .noClient => some "GitHub client unavailable"
  | .alreadyExists n => some ("Repository " ++ n ++ " already exists.")
  | .createFailed m => some m
  | .created _ => none

/-- Shallow embedding of `/api/create_repo`.  The second component
records whether `gh.create_repo` was invoked.  The already‑exists guard
is `if info and not info.get("message")`: `info` is `None` after an
exception, a truthy repo object without `message` on HTTP 200/201, and
the truthy dict `{"message": r.text}` otherwise (whose `message` is
falsy only when `r.text` is empty). -/
def api_create_repo (pat : Option String) (nameArg : String) (w : CreateRepoWorld) :
    CreateResp × Bool :=
  if pat.isNone then (.unauthorized, false)
  else
    let name := strip nameArg
    if name = "" then (.badName, false)
    else if truthyOpt pat = false then (.noClient, false)
    else if !w.infoRaises && (w.infoOk || w.infoMessage == "") then (.alreadyExists name, false)
    else
      match w.createError with
      | some msg => (.createFailed msg, true)
      | none => (.created name, true)

/-!
## `GitHubAPI.upload_file` and `GitHubAPI.bulk_upload`
(utils/github_api.py lines 130–156 and 178–183)

The remote contents store is a finite map from path to the stored file
(server‑assigned revision sha and content).  The lookup GET preceding
the PUT returns 200 with the stored sha exactly when the path exists;
an exception during the lookup is caught and collapses to `sha = None`
just like a non‑200, so both are the `none` case.  The PUT outcome is
decided by the world per path (`putOk`), with the upstream message on
failure and the newly assigned sha on success.
-/

/-- A file stored in the remote repository. -/
structure RemoteFile where
  sha : String
  data : String
deriving DecidableEq

/-- The remote contents of one repository, as path/file pairs. -/
abbrev Store := List (String × RemoteFile)

/-- Lookup of a path in the remote store. -/
def storeGet (s : Store) (p : String) : Option RemoteFile :=
  (s.find? (fun e => e.1 == p)).map (fun e => e.2)

/-- The store after a successful PUT of `f` at `p`. -/
def storeSet (s : Store) (p : String) (f : RemoteFile) : Store :=
  (p, f) :: s.filter (fun e => e.1 != p)

/-- Upstream behaviour of the content PUT calls, per path. -/
structure UploadWorld where
  putOk : String → Bool
  putErrMsg : String → String
  newSha : String → String

/-- The JSON payload of the content PUT: commit message, base64 content
(modelled as the raw bytes), and the optional revision sha — included
only when the preceding lookup produced a truthy sha (`if sha:`). -/
structure PutPayload where
  message : String
  content : String
  sha : Option String
deriving DecidableEq

/-- Result of one `upload_file` call: the parsed JSON of a 200/201 PUT,
or the error dict `{"error": msg}`. -/
inductive UploadResult where
  | ok (path sha : String)
  | err (msg : String)
deriving DecidableEq

/-- Shallow embedding of `GitHubAPI.upload_file`: look up the current
sha (tolerating not‑found as `sha = None`), build the PUT payload with
the sha only if truthy, then PUT; returns the payload, the per‑file
result, and the store after the call. -/
def upload_file (w : UploadWorld) (store : Store) (path contentBytes message : String) :
    PutPayload × UploadResult × Store :=
  let sha := (storeGet store path).map (fun f => f.sha)
  let payload : PutPayload := ⟨message, contentBytes, normB sha⟩
  if w.putOk path then
    (payload, .ok path (w.newSha path), storeSet store path ⟨w.newSha path, contentBytes⟩)
  else
    (payload, .err (w.putErrMsg path), store)

/-- Shallow embedding of `GitHubAPI.bulk_upload`: upload each item in
order with message `"Upload " ++ path`, appending every per‑file result
(no abort, no rollback). -/
def bulk_upload (w : UploadWorld) (store : Store) :
    List (String × String) → List UploadResult × Store
  | [] => ([], store)
  | (p, b) :: rest =>
    let r := upload_file w store p b ("Upload " ++ p)
    let rs := bulk_upload w r.2.2 rest
    (r.2.1 :: rs.1, rs.2)

/-!
## Spec‑side resolver (section 4.1 of the specification)

The following definitions follow the specification's words, to be
compared with `resolveFile` (which is translated from the source):
an ordered, deduplicated candidate list — branch hint, default branch,
`"main"`, `"master"` — tried in order stopping at the first success,
then the raw fallback over the attempted names in the same order.
-/

/-- Ordered deduplication keeping the first occurrence of each name and
skipping names already in `seen`. -/
def dedupAux (seen : List String) : List String → List String
  | [] => []
  | x :: xs => if x ∈ seen then dedupAux seen xs else x :: dedupAux (x :: seen) xs

/-- Ordered deduplication of a list, keeping first occurrences. -/
def dedupFirst (l : List String) : List String := dedupAux [] l

/-- Spec‑side candidate branch list: hint (if supplied), default branch
(if configured), `"main"`, `"master"`, deduplicated in order. -/
def specCandidates (hint db : Option String) : List String :=
  dedupFirst ((normB hint).toList ++ (normB db).toList ++ ["main", "master"])

/-- Spec‑side reading of one structured attempt: it succeeds exactly
when it produced text content; any non‑2xx response or error body is a
failed attempt. -/
def specSuccess : GftResult → Option String
  | .text s => some s
  | _ => none

/-- Spec‑side structured pass: attempt each candidate in order, stop at
the first success; return the content (if any) and the attempted
prefix of the candidate list. -/
def specStructured (w : FileWorld) : List String → Option String × List String
  | [] => (none, [])
  | b :: bs =>
    match specSuccess (w.fetch b) with
    | some s => (some s, [b])
    | none =>
      let r := specStructured w bs
      (r.1, b :: r.2)

/-- Spec‑side resolution: structured pass over the deduplicated
candidates, then the raw fallback over the attempted branch names in
the same order, stopping at the first HTTP 200. -/
def resolveSpec (w : FileWorld) (hint : Option String) : Option String × List String :=
  match specStructured w (specCandidates hint w.defaultBranch) with
  | (some s, tried) => (some s, tried)
  | (none, tried) => (rawPhase w.raw tried, tried)

/-!
## Concrete instances used in witnesses and counterexamples
-/

/-- A world in which the file exists only on branch `"master"` and the
repository's default branch is `"main"`. -/
def wOnlyMaster : FileWorld :=
  ⟨fun b => if b = "master" then .text "hello" else .err "Not Found",
    some "main", fun _ => none⟩

/-- A world in which every structured and raw attempt fails; the
default branch is `"dev"`. -/
def wAllFail : FileWorld :=
  ⟨fun _ => .err "Not Found", some "dev", fun _ => some (404, "")⟩

/-- A world in which every structured attempt fails but the raw fetch
for `"master"` answers 200. -/
def wRawOnly : FileWorld :=
  ⟨fun _ => .err "Not Found", none,
    fun b => if b = "master" then some (200, "rawbody") else some (404, "")⟩

/-- A world whose structured fetch of `"main"` yields a 200 response
with no usable content (`None`), all other branches failing. -/
def wNoContent : FileWorld :=
  ⟨fun b => if b = "main" then .noneVal else .err "Not Found",
    some "dev", fun _ => none⟩

/-- A `/api/get_file` request arriving without a session. -/
def reqNoSession : GetFileReq :=
  ⟨some "acme", none, none, "widgets", "README.md", ""⟩

/-- A `/api/get_file` request with a logged‑in session. -/
def reqSession : GetFileReq :=
  ⟨some "acme", none, some "token123", "widgets", "README.md", ""⟩

/-- A `/api/get_file` request whose branch hint is `"dev"`, equal to
the default branch of `wAllFail`. -/
def reqHintDev : GetFileReq :=
  ⟨some "acme", none, some "token123", "widgets", "README.md", "dev"⟩

/-- An upload world in which only the PUT for `"b.py"` fails. -/
def upW : UploadWorld :=
  ⟨fun p => p != "b.py", fun _ => "Validation Failed", fun p => "sha-" ++ p⟩

/-- Three files to upload, the middle of which `upW` rejects. -/
def items3 : List (String × String) :=
  [("a.py", "print(1)"), ("b.py", "print(2)"), ("c.py", "print(3)")]

/-- A create‑repo world in which the repository already exists. -/
def crExists : CreateRepoWorld := ⟨false, true, "", none⟩

/-- A 200 contents response carrying no `content` field. -/
def respNoContent : ContentsResp := ⟨200, true, some "base64", none, none, ""⟩

/-!
## Bridging lemmas between `resolveFile` and the spec‑side resolver
-/

theorem mem_dedupAux (y : String) :
    ∀ (l seen : List String), y ∈ dedupAux seen l ↔ y ∈ l ∧ y ∉ seen := by
  intro l
  induction l with
  | nil => intro seen; simp [dedupAux]
  | cons x xs ih =>
    intro seen
    by_cases hx : x ∈ seen
    · simp only [dedupAux, if_pos hx, ih, List.mem_cons]
      constructor
      · rintro ⟨hy, hns⟩; exact ⟨Or.inr hy, hns⟩
      · rintro ⟨hy | hy, hns⟩
        · exact absurd (hy ▸ hx) hns
        · exact ⟨hy, hns⟩
    · simp only [dedupAux, if_neg hx, List.mem_cons, ih]
      by_cases hyx : y = x
      · subst hyx; simp [hx]
      · simp [hyx]

theorem dedupAux_congr :
    ∀ (l s₁ s₂ : List String), (∀ y, y ∈ s₁ ↔ y ∈ s₂) → dedupAux s₁ l = dedupAux s₂ l := by
  intro l
  induction l with
  | nil => intro s₁ s₂ _; rfl
  | cons x xs ih =>
    intro s₁ s₂ hs
    by_cases hx : x ∈ s₁
    · rw [dedupAux, dedupAux, if_pos hx, if_pos ((hs x).mp hx), ih _ _ hs]
    · rw [dedupAux, dedupAux, if_neg hx, if_neg (fun h => hx ((hs x).mpr h))]
      congr 1
      exact ih _ _ (by intro y; simp [hs y])

theorem dedupAux_nodup : ∀ (l seen : List String), (dedupAux seen l).Nodup := by
  intro l
  induction l with
  | nil => intro seen; simp [dedupAux]
  | cons x xs ih =>
    intro seen
    by_cases hx : x ∈ seen
    · simpa [dedupAux, if_pos hx] using ih seen
    · rw [dedupAux, if_neg hx]
      refine List.nodup_cons.mpr ⟨?_, ih _⟩
      intro hmem
      exact ((mem_dedupAux x xs (x :: seen)).mp hmem).2 (List.mem_cons_self x seen)

theorem foldl_tryRef_some (w : FileWorld) :
    ∀ (l : List String) (c : Content) (t : List String),
      List.foldl (tryRef w) (some c, t) l = (some c, t) := by
  intro l
  induction l with
  | nil => intro c t; rfl
  | cons x xs ih => intro c t; simp only [List.foldl_cons, tryRef]; exact ih c t

theorem attemptResult_eq (g : GftResult) (h : g ≠ GftResult.err "") :
    attemptResult g = (specSuccess g).map Content.text := by
  cases g with
  | text s => rfl
  | noneVal => rfl
  | err m =>
    have hm : m ≠ "" := fun e => h (by rw [e])
    simp [attemptResult, specSuccess, hm]

theorem foldl_tryRef_none (w : FileWorld) (h : ∀ b, w.fetch b ≠ GftResult.err "") :
    ∀ (l t : List String),
      List.foldl (tryRef w) (none, t) l =
        (((specStructured w (dedupAux t l)).1).map Content.text,
          t ++ (specStructured w (dedupAux t l)).2) := by
  intro l
  induction l with
  | nil => intro t; simp [specStructured, dedupAux]
  | cons x xs ih =>
    intro t
    by_cases hx : x ∈ t
    · simpa [List.foldl_cons, tryRef, hx, dedupAux] using ih t
    · rcases hfx : specSuccess (w.fetch x) with _ | s
      · -- the attempt on x fails; recurse with x recorded as tried
        have hatt : attemptResult (w.fetch x) = none := by
          rw [attemptResult_eq (w.fetch x) (h x), hfx]; rfl
        have hded : dedupAux (t ++ [x]) xs = dedupAux (x :: t) xs := by
          refine dedupAux_congr xs (t ++ [x]) (x :: t) ?_
          intro y; simp [or_comm]
        have := ih (t ++ [x])
        rw [hded] at this
        simp only [List.foldl_cons, tryRef, if_neg hx, hatt, this,
          dedupAux, if_neg hx, specStructured, hfx, List.append_assoc,
          List.singleton_append]
      · -- the attempt on x succeeds
        have hatt : attemptResult (w.fetch x) = some (Content.text s) := by
          rw [attemptResult_eq (w.fetch x) (h x), hfx]; rfl
        simp only [List.foldl_cons, tryRef, if_neg hx, hatt, foldl_tryRef_some,
          dedupAux, if_neg hx, specStructured, hfx]
        rfl

theorem hintPhase_eq_foldl (w : FileWorld) (branch : Option String) :
    hintPhase w branch = List.foldl (tryRef w) (none, []) (normB branch).toList := by
  rcases branch with _ | b
  · rfl
  · by_cases hb : b = "" <;>
      simp [hintPhase, normB, hb, tryRef, List.foldl_cons]

theorem defaultPhase_eq_foldl (w : FileWorld) (st : Option Content × List String) :
    defaultPhase w st = List.foldl (tryRef w) st (normB w.defaultBranch).toList := by
  rcases st with ⟨c, t⟩
  rcases c with _ | c
  · rcases hdb : w.defaultBranch with _ | db
    · simp [defaultPhase, hdb, normB]
    · by_cases hdbe : db = ""
      · simp [defaultPhase, hdb, normB, hdbe]
      · by_cases hmem : db ∈ t <;>
          simp [defaultPhase, hdb, normB, hdbe, hmem, tryRef, List.foldl_cons]
  · rcases hdb : w.defaultBranch with _ | db
    · simp [defaultPhase, hdb, normB]
    · by_cases hdbe : db = "" <;>
      simp [defaultPhase, hdb, normB, hdbe, tryRef, List.foldl_cons, foldl_tryRef_some]

theorem resolveFile_eq_foldl (w : FileWorld) (branch : Option String) :
    resolveFile w branch =
      match List.foldl (tryRef w) ((none : Option Content), ([] : List String))
          ((normB branch).toList ++ (normB w.defaultBranch).toList ++ ["main", "master"]) with
      | (none, t) => ((rawPhase w.raw (if t = [] then ["main"] else t)).map Content.text, t)
      | s => s := by
  have htail : ∀ st : Option Content × List String,
      List.foldl (tryRef w) st ["main", "master"] = tryRef w (tryRef w st "main") "master" := by
    intro st; rfl
  rw [List.foldl_append, List.foldl_append, ← hintPhase_eq_foldl, ← defaultPhase_eq_foldl, htail]
  rfl

theorem specStructured_fst_none (w : FileWorld) :
    ∀ l : List String, (specStructured w l).1 = none → (specStructured w l).2 = l := by
  intro l
  induction l with
  | nil => intro _; rfl
  | cons b bs ih =>
    intro hnone
    rcases hfb : specSuccess (w.fetch b) with _ | s
    · simp only [specStructured, hfb] at hnone ⊢
      rw [ih hnone]
    · simp [specStructured, hfb] at hnone

theorem specStructured_all_fail (w : FileWorld) :
    ∀ l : List String, (∀ b ∈ l, specSuccess (w.fetch b) = none) →
      specStructured w l = (none, l) := by
  intro l
  induction l with
  | nil => intro _; rfl
  | cons b bs ih =>
    intro hall
    have hb : specSuccess (w.fetch b) = none := hall b (List.mem_cons_self b bs)
    have hbs := ih (fun x hx => hall x (List.mem_cons_of_mem b hx))
    simp [specStructured, hb, hbs]

theorem mem_specCandidates (y : String) (hint db : Option String) :
    y ∈ specCandidates hint db ↔
      y ∈ (normB hint).toList ++ (normB db).toList ++ ["main", "master"] := by
  unfold specCandidates dedupFirst
  rw [mem_dedupAux]
  simp

theorem specCandidates_nodup (hint db : Option String) : (specCandidates hint db).Nodup :=
  dedupAux_nodup _ []

theorem specCandidates_ne_nil (hint db : Option String) : specCandidates hint db ≠ [] := by
  intro h
  have : "master" ∈ specCandidates hint db := by
    rw [mem_specCandidates]; simp
  rw [h] at this
  exact absurd this (List.not_mem_nil _)

/-- Core refinement: under worlds whose error dicts carry a truthy
(non‑empty) message — which is how both the upstream API and
`get_file_text` populate them — the code's resolver coincides with the
spec‑side resolver: structured attempts over the deduplicated candidate
list in order, then the raw fallback over the attempted names. -/
theorem resolveFile_eq_spec (w : FileWorld) (branch : Option String)
    (h : ∀ b, w.fetch b ≠ GftResult.err "") :
    resolveFile w branch =
      (((resolveSpec w branch).1).map Content.text, (resolveSpec w branch).2) := by
  rw [resolveFile_eq_foldl, foldl_tryRef_none w h]
  unfold resolveSpec specCandidates dedupFirst
  rcases hS : specStructured w
      (dedupAux [] ((normB branch).toList ++ (normB w.defaultBranch).toList ++ ["main", "master"]))
    with ⟨c, tried⟩
  rcases c with _ | s
  · have htried : tried =
        dedupAux [] ((normB branch).toList ++ (normB w.defaultBranch).toList ++ ["main", "master"]) := by
      have := specStructured_fst_none w
        (dedupAux [] ((normB branch).toList ++ (normB w.defaultBranch).toList ++ ["main", "master"]))
        (by rw [hS])
      rw [hS] at this
      exact this
    have hne : tried ≠ [] := by
      rw [htried]
      intro hnil
      have : "master" ∈ dedupAux []
          ((normB branch).toList ++ (normB w.defaultBranch).toList ++ ["main", "master"]) := by
        rw [mem_dedupAux]; simp
      rw [hnil] at this
      exact absurd this (List.not_mem_nil _)
    simp [hS, hne]
  · simp [hS]

theorem rawPhase_eq_none (raw : String → Option (Nat × String)) :
    ∀ l : List String, (∀ b ∈ l, ∀ st body, raw b = some (st, body) → st ≠ 200) →
      rawPhase raw l = none := by
  intro l
  induction l with
  | nil => intro _; rfl
  | cons b bs ih =>
    intro h
    have hbs := ih (fun x hx => h x (List.mem_cons_of_mem b hx))
    rcases hb : raw b with _ | ⟨st, body⟩
    · simp [rawPhase, hb, hbs]
    · have hne : st ≠ 200 := h b (List.mem_cons_self b bs) st body hb
      simp [rawPhase, hb, hne, hbs]

theorem foldl_tryRef_nodup (w : FileWorld) :
    ∀ (l : List String) (st : Option Content × List String), st.2.Nodup →
      (List.foldl (tryRef w) st l).2.Nodup ∧
        ∀ x ∈ st.2, x ∈ (List.foldl (tryRef w) st l).2 := by
  intro l
  induction l with
  | nil => intro st h; exact ⟨h, fun x hx => hx⟩
  | cons b bs ih =>
    intro st h
    rcases st with ⟨c, t⟩
    rcases c with _ | c
    · by_cases hb : b ∈ t
      · simpa [List.foldl_cons, tryRef, hb] using ih (none, t) h
      · have ht : (t ++ [b]).Nodup := by
          simp only [List.nodup_append, List.nodup_cons, List.nodup_nil, and_true, true_and]
          exact ⟨h, by simpa [List.disjoint_singleton] using hb⟩
        have hrec := ih (attemptResult (w.fetch b), t ++ [b]) ht
        refine ⟨?_, fun x hx => ?_⟩
        · simpa [List.foldl_cons, tryRef, hb] using hrec.1
        · have : x ∈ t ++ [b] := List.mem_append_left _ hx
          simpa [List.foldl_cons, tryRef, hb] using hrec.2 x this
    · simp only [List.foldl_cons, tryRef, foldl_tryRef_some]
      exact ⟨h, fun x hx => hx⟩

theorem resolveFile_snd (w : FileWorld) (branch : Option String) :
    (resolveFile w branch).2 =
      (List.foldl (tryRef w) ((none : Option Content), ([] : List String))
        ((normB branch).toList ++ (normB w.defaultBranch).toList ++ ["main", "master"])).2 := by
  rw [resolveFile_eq_foldl]
  rcases hst : List.foldl (tryRef w) ((none : Option Content), ([] : List String))
      ((normB branch).toList ++ (normB w.defaultBranch).toList ++ ["main", "master"])
    with ⟨c, t⟩
  rcases c with _ | c <;> simp

theorem attemptResult_none_imp (g : GftResult) (h : attemptResult g = none) :
    specSuccess g = none ∧ g ≠ GftResult.err "" := by
  cases g with
  | text s => simp [attemptResult] at h
  | noneVal => exact ⟨rfl, by intro hh; cases hh⟩
  | err m =>
    refine ⟨rfl, ?_⟩
    intro hh
    rw [hh] at h
    simp [attemptResult] at h

/-- When every structured attempt fails the resolver degenerates to the
raw fallback over the full deduplicated candidate list, which is also
the final `tried` list. -/
theorem resolveFile_structured_fail (w : FileWorld) (branch : Option String)
    (hall : ∀ b, attemptResult (w.fetch b) = none) :
    resolveFile w branch =
      ((rawPhase w.raw (specCandidates branch w.defaultBranch)).map Content.text,
        specCandidates branch w.defaultBranch) := by
  have herr : ∀ b, w.fetch b ≠ GftResult.err "" := fun b => (attemptResult_none_imp _ (hall b)).2
  have hspec : ∀ b, specSuccess (w.fetch b) = none := fun b => (attemptResult_none_imp _ (hall b)).1
  rw [resolveFile_eq_spec w branch herr]
  simp [resolveSpec, specStructured_all_fail w _ (fun b _ => hspec b)]

/-- The resolver only inspects the structured fetches through
`attemptResult`, so worlds agreeing under it are indistinguishable. -/
theorem resolveFile_congr (w w' : FileWorld)
    (hf : ∀ x, attemptResult (w.fetch x) = attemptResult (w'.fetch x))
    (hdb : w.defaultBranch = w'.defaultBranch)
    (hraw : w.raw = w'.raw) (branch : Option String) :
    resolveFile w branch = resolveFile w' branch := by
  unfold resolveFile hintPhase defaultPhase tryRef
  simp only [hf, hdb, hraw]

theorem storeGet_set_self (s : Store) (p : String) (f : RemoteFile) :
    storeGet (storeSet s p f) p = some f := by
  simp [storeGet, storeSet]

theorem find_filter_ne (p q : String) (h : q ≠ p) :
    ∀ s : Store, ((s.filter (fun e => e.1 != q)).find? (fun e => e.1 == p))
      = s.find? (fun e => e.1 == p) := by
  intro s
  induction s with
  | nil => rfl
  | cons e es ih =>
    by_cases he : e.1 = p
    · have h1 : (e.1 != q) = true := by
        simp only [bne_iff_ne, ne_eq]
        rw [he]
        exact fun hh => h hh.symm
      have hpq : ¬(p = q) := fun hh => h hh.symm
      simp [List.filter_cons, h1, List.find?_cons, he, hpq]
    · by_cases heq : e.1 = q
      · have h1 : (e.1 != q) = false := by simp [heq]
        simp [List.filter_cons, h1, List.find?_cons, he, ih]
      · have h1 : (e.1 != q) = true := by simp [heq]
        simp [List.filter_cons, h1, List.find?_cons, he, ih]

theorem storeGet_set_ne (s : Store) (p q : String) (f : RemoteFile) (h : q ≠ p) :
    storeGet (storeSet s q f) p = storeGet s p := by
  have hq : (q == p) = false := by simp [h]
  simp [storeGet, storeSet, List.find?_cons, hq, find_filter_ne p q h s]

theorem upload_file_putOk_true (w : UploadWorld) (store : Store) (path c m : String)
    (h : w.putOk path = true) :
    upload_file w store path c m =
      (⟨m, c, normB ((storeGet store path).map (fun f => f.sha))⟩,
        .ok path (w.newSha path), storeSet store path ⟨w.newSha path, c⟩) := by
  simp [upload_file, h]

theorem upload_file_putOk_false (w : UploadWorld) (store : Store) (path c m : String)
    (h : w.putOk path = false) :
    upload_file w store path c m =
      (⟨m, c, normB ((storeGet store path).map (fun f => f.sha))⟩,
        .err (w.putErrMsg path), store) := by
  simp [upload_file, h]

theorem bulk_upload_cons (w : UploadWorld) (store : Store) (p b : String)
    (rest : List (String × String)) :
    bulk_upload w store ((p, b) :: rest) =
      ((upload_file w store p b ("Upload " ++ p)).2.1 ::
          (bulk_upload w (upload_file w store p b ("Upload " ++ p)).2.2 rest).1,
        (bulk_upload w (upload_file w store p b ("Upload " ++ p)).2.2 rest).2) := rfl

theorem bulk_upload_results (w : UploadWorld) :
    ∀ (items : List (String × String)) (store : Store),
      (bulk_upload w store items).1 =
        items.map (fun pb =>
          if w.putOk pb.1 then UploadResult.ok pb.1 (w.newSha pb.1)
          else UploadResult.err (w.putErrMsg pb.1)) := by
  intro items
  induction items with
  | nil => intro store; rfl
  | cons pb rest ih =>
    intro store
    rcases pb with ⟨p, b⟩
    rw [bulk_upload_cons]
    cases hp : w.putOk p
    · rw [upload_file_putOk_false w store p b _ hp]
      simp [ih, hp]
    · rw [upload_file_putOk_true w store p b _ hp]
      simp [ih, hp]

theorem bulk_upload_store_other (w : UploadWorld) (p : String) :
    ∀ (items : List (String × String)) (store : Store),
      (∀ pb ∈ items, pb.1 ≠ p) →
      storeGet (bulk_upload w store items).2 p = storeGet store p := by
  intro items
  induction items with
  | nil => intro store _; rfl
  | cons qb rest ih =>
    intro store h
    rcases qb with ⟨q, b⟩
    have hq : q ≠ p := h (q, b) (List.mem_cons_self _ _)
    have hrest := fun x hx => h x (List.mem_cons_of_mem _ hx)
    rw [bulk_upload_cons]
    cases hop : w.putOk q
    · rw [upload_file_putOk_false w store q b _ hop]
      exact ih _ hrest
    · rw [upload_file_putOk_true w store q b _ hop]
      calc storeGet (bulk_upload w (storeSet store q ⟨w.newSha q, b⟩) rest).2 p
          = storeGet (storeSet store q ⟨w.newSha q, b⟩) p := ih _ hrest
        _ = storeGet store p := storeGet_set_ne _ _ _ _ hq

theorem bulk_upload_no_rollback (w : UploadWorld) :
    ∀ (items : List (String × String)) (store : Store),
      items.Pairwise (fun a b => a.1 ≠ b.1) →
      ∀ pb ∈ items, w.putOk pb.1 = true →
        storeGet (bulk_upload w store items).2 pb.1 =
          some ⟨w.newSha pb.1, pb.2⟩ := by
  intro items
  induction items with
  | nil => intro store _ pb hpb; cases hpb
  | cons qb rest ih =>
    intro store hpw pb hpb hok
    rcases List.pairwise_cons.mp hpw with ⟨hhead, htail⟩
    rcases qb with ⟨q, b⟩
    rcases List.mem_cons.mp hpb with heq | hmem
    · subst heq
      have hrest : ∀ x ∈ rest, x.1 ≠ q := fun x hx => (hhead x hx).symm
      rw [bulk_upload_cons, upload_file_putOk_true w store q b _ hok]
      rw [bulk_upload_store_other w q rest _ hrest, storeGet_set_self]
    · rw [bulk_upload_cons]
      cases hop : w.putOk q
      · rw [upload_file_putOk_false w store q b _ hop]
        exact ih _ htail pb hmem hok
      · rw [upload_file_putOk_true w store q b _ hop]
        exact ih _ htail pb hmem hok

/-!
## Claim theorems
-/

/-- C1: for every call to the file‑content resolution operation
(`resolveFile`, the core of `api_get_file`), attempts are made in the
order: branch hint if supplied; configured default branch, skipped if
already tried; literal `"main"` if not already tried; literal
`"master"` if not already tried; and if all structured attempts fail,
an unauthenticated raw‑content retrieval for each previously attempted
branch name, in the same order, stopping at the first HTTP 200 — that
is, the code resolver coincides with `resolveSpec`, the resolver
written from the spec's words, on every world whose error dicts carry
a truthy message (how both the upstream API and `get_file_text`
populate them). -/
theorem C1_resolution_order (w : FileWorld) (branch : Option String)
    (h : ∀ b, w.fetch b ≠ GftResult.err "") :
    resolveFile w branch =
      (((resolveSpec w branch).1).map Content.text, (resolveSpec w branch).2) :=
  resolveFile_eq_spec w branch h

/-- Witness for C1 at a concrete world and branch hint. -/
theorem C1_witness :
    (∀ b, wAllFail.fetch b ≠ GftResult.err "") ∧
      resolveFile wAllFail (some "feat") =
        (((resolveSpec wAllFail (some "feat")).1).map Content.text,
          (resolveSpec wAllFail (some "feat")).2) := by
  have h : ∀ b, wAllFail.fetch b ≠ GftResult.err "" := by
    intro b hcontra
    have hs : "Not Found" = "" := by injection hcontra
    exact absurd hs (by decide)
  exact ⟨h, C1_resolution_order wAllFail (some "feat") h⟩

/-- C2: if every attempt of the resolution operation fails (all
structured fetches and all raw fetches), `/api/get_file` answers the
not‑found response — status 404, success `false`, distinguishable from
the transport/auth failures (500/401) — whose `tried` diagnostic lists
every attempted branch name, each exactly once (`Nodup`), in attempt
order (hint, default, `"main"`, `"master"`, first occurrences). -/
theorem C2_all_fail_not_found (req : GetFileReq) (w : FileWorld)
    (hall : ∀ b, attemptResult (w.fetch b) = none)
    (hraw : ∀ b st body, w.raw b = some (st, body) → st ≠ 200)
    (howner : truthyOpt (effOwner req) = true)
    (hrepo : strip req.repo ≠ "")
    (hpath : strip req.path ≠ "")
    (hpat : truthyOpt req.pat = true) :
    api_get_file req w =
        GetFileResp.notFound (specCandidates (hintOf req.branchArg) w.defaultBranch)
      ∧ (specCandidates (hintOf req.branchArg) w.defaultBranch).Nodup
      ∧ (∀ b, b ∈ specCandidates (hintOf req.branchArg) w.defaultBranch ↔
          b ∈ (normB (hintOf req.branchArg)).toList ++ (normB w.defaultBranch).toList
            ++ ["main", "master"])
      ∧ (api_get_file req w).status = 404
      ∧ (api_get_file req w).success = false
      ∧ (api_get_file req w).status ≠ 500
      ∧ (api_get_file req w).status ≠ 401 := by
  have hres : resolveFile w (hintOf req.branchArg) =
      (none, specCandidates (hintOf req.branchArg) w.defaultBranch) := by
    rw [resolveFile_structured_fail w _ hall,
      rawPhase_eq_none w.raw _ (fun b _ st body hb => hraw b st body hb)]
    rfl
  have hapi : api_get_file req w =
      GetFileResp.notFound (specCandidates (hintOf req.branchArg) w.defaultBranch) := by
    simp [api_get_file, howner, hrepo, hpath, hpat, hres]
  refine ⟨hapi, specCandidates_nodup _ _, fun b => mem_specCandidates b _ _, ?_, ?_, ?_, ?_⟩ <;>
    simp [hapi, GetFileResp.status, GetFileResp.success]

/-- Witness for C2: a session request with no branch hint against a
world with default branch `"dev"` where everything fails. -/
theorem C2_witness :
    api_get_file reqSession wAllFail = GetFileResp.notFound ["dev", "main", "master"]
      ∧ (["dev", "main", "master"] : List String).Nodup
      ∧ (api_get_file reqSession wAllFail).status = 404 := by
  have hall : ∀ b, attemptResult (wAllFail.fetch b) = none := fun b => rfl
  have hraw : ∀ b st body, wAllFail.raw b = some (st, body) → st ≠ 200 := by
    intro b st body hb
    have h1 : (404, "") = (st, body) := by injection hb
    have h2 : st = 404 := by
      have := congrArg Prod.fst h1
      simpa using this.symm
    omega
  have h := C2_all_fail_not_found reqSession wAllFail hall hraw
    (by decide) (by decide) (by decide) (by decide)
  have hc : specCandidates (hintOf reqSession.branchArg) wAllFail.defaultBranch =
      ["dev", "main", "master"] := by decide
  exact ⟨hc ▸ h.1, by decide, h.2.2.2.1⟩

/-- C3: if every structured attempt fails but the raw‑content loop over
the attempted branch names yields an HTTP 200 (first such response has
body `c`), resolution succeeds with that content — `/api/get_file`
answers the 200 success envelope carrying `c` and does not report the
not‑found error. -/
theorem C3_raw_fallback (req : GetFileReq) (w : FileWorld) (c : String)
    (hall : ∀ b, attemptResult (w.fetch b) = none)
    (hraw : rawPhase w.raw (specCandidates (hintOf req.branchArg) w.defaultBranch) = some c)
    (howner : truthyOpt (effOwner req) = true)
    (hrepo : strip req.repo ≠ "")
    (hpath : strip req.path ≠ "")
    (hpat : truthyOpt req.pat = true) :
    api_get_file req w = GetFileResp.ok (strip req.path) (Content.text c)
      ∧ (api_get_file req w).status = 200
      ∧ (api_get_file req w).success = true
      ∧ ∀ t, api_get_file req w ≠ GetFileResp.notFound t := by
  have hres : resolveFile w (hintOf req.branchArg) =
      (some (Content.text c), specCandidates (hintOf req.branchArg) w.defaultBranch) := by
    rw [resolveFile_structured_fail w _ hall, hraw]
    rfl
  have hapi : api_get_file req w = GetFileResp.ok (strip req.path) (Content.text c) := by
    simp [api_get_file, howner, hrepo, hpath, hpat, hres]
  refine ⟨hapi, ?_, ?_, ?_⟩ <;>
    simp [hapi, GetFileResp.status, GetFileResp.success]

/-- Witness for C3: all structured attempts fail but the raw fetch of
`"master"` answers 200 with body `"rawbody"`. -/
theorem C3_witness :
    api_get_file reqSession wRawOnly = GetFileResp.ok "README.md" (Content.text "rawbody")
      ∧ (api_get_file reqSession wRawOnly).status = 200 := by
  have hall : ∀ b, attemptResult (wRawOnly.fetch b) = none := fun b => rfl
  have hraw : rawPhase wRawOnly.raw
      (specCandidates (hintOf reqSession.branchArg) wRawOnly.defaultBranch) =
        some "rawbody" := by decide
  have h := C3_raw_fallback reqSession wRawOnly "rawbody" hall hraw
    (by decide) (by decide) (by decide) (by decide)
  exact ⟨h.1, h.2.1⟩

/-- C4: for every invocation of the resolution operation the list of
attempted branch names contains no duplicates; in particular, whenever
the explicit branch hint equals the repository's default branch,
exactly one structured attempt is made for that branch name, not two
(each `tried` entry corresponds to exactly one `get_file_text` call). -/
theorem C4_no_duplicate_attempts (w : FileWorld) (branch : Option String) :
    (resolveFile w branch).2.Nodup
      ∧ ∀ b, branch = some b → b ≠ "" → w.defaultBranch = some b →
          (resolveFile w branch).2.count b = 1 := by
  have hnodup : (resolveFile w branch).2.Nodup := by
    rw [resolveFile_snd]
    exact (foldl_tryRef_nodup w _ ((none : Option Content), ([] : List String))
      List.nodup_nil).1
  refine ⟨hnodup, ?_⟩
  intro b hb hbe _
  subst hb
  have hmem : b ∈ (resolveFile w (some b)).2 := by
    rw [resolveFile_snd]
    have hlist : (normB (some b)).toList ++ (normB w.defaultBranch).toList
        ++ ["main", "master"] =
        b :: ((normB w.defaultBranch).toList ++ ["main", "master"]) := by
      simp [normB, hbe]
    rw [hlist, List.foldl_cons]
    have hstep : tryRef w ((none : Option Content), ([] : List String)) b =
        (attemptResult (w.fetch b), [b]) := by
      simp [tryRef]
    rw [hstep]
    rcases hc : attemptResult (w.fetch b) with _ | c
    · exact (foldl_tryRef_nodup w _ (none, [b]) (by simp)).2 b (by simp)
    · rw [foldl_tryRef_some]
      simp
  exact List.count_eq_one_of_mem hnodup hmem

/-- Witness for C4: hint `"dev"` equals the default branch `"dev"`;
the attempted list is duplicate‑free and tries `"dev"` once. -/
theorem C4_witness :
    (resolveFile wAllFail (some "dev")).2.Nodup
      ∧ (resolveFile wAllFail (some "dev")).2.count "dev" = 1 := by
  have h := C4_no_duplicate_attempts wAllFail (some "dev")
  exact ⟨h.1, h.2 "dev" rfl (by decide) rfl⟩

/-- C5: when the file exists only on `"master"`, no branch hint is
given, and the default branch is `"main"`, resolution succeeds by
falling through to the `"master"` attempt — the attempted list is
exactly `["main", "master"]` and `"master"` is attempted exactly
once. -/
theorem C5_master_fallthrough (w : FileWorld) (c : String)
    (hdb : w.defaultBranch = some "main")
    (hmaster : w.fetch "master" = GftResult.text c)
    (hothers : ∀ b, b ≠ "master" → attemptResult (w.fetch b) = none) :
    resolveFile w none = (some (Content.text c), ["main", "master"])
      ∧ (resolveFile w none).2.count "master" = 1 := by
  have hmain : attemptResult (w.fetch "main") = none := hothers "main" (by decide)
  have hm2 : attemptResult (w.fetch "master") = some (Content.text c) := by
    rw [hmaster]; rfl
  have hne : ("master" : String) ≠ "main" := by decide
  have h1 : resolveFile w none = (some (Content.text c), ["main", "master"]) := by
    simp [resolveFile, hintPhase, defaultPhase, hdb, tryRef, hmain, hm2, hne]
  refine ⟨h1, ?_⟩
  rw [h1]
  show (["main", "master"] : List String).count "master" = 1
  decide

/-- Witness for C5 at the concrete world `wOnlyMaster`. -/
theorem C5_witness :
    resolveFile wOnlyMaster none = (some (Content.text "hello"), ["main", "master"])
      ∧ (resolveFile wOnlyMaster none).2.count "master" = 1 := by
  have hothers : ∀ b, b ≠ "master" → attemptResult (wOnlyMaster.fetch b) = none := by
    intro b hb
    have hfb : wOnlyMaster.fetch b = GftResult.err "Not Found" := by
      simp [wOnlyMaster, hb]
    rw [hfb]
    decide
  exact C5_master_fallthrough wOnlyMaster "hello" rfl (by decide) hothers

/-- C6 counterexample: a `/api/get_file` request with valid arguments
but a missing session (`pat = none`) is answered with an error envelope
of status 500 ("GitHub client unavailable"), not the 401 the claim
requires for a missing/invalid session; so the claimed endpoint‑wide
status taxonomy fails on the code. -/
theorem C6_counterexample :
    reqNoSession.pat = none
      ∧ api_get_file reqNoSession wOnlyMaster = GetFileResp.noClient
      ∧ (api_get_file reqNoSession wOnlyMaster).success = false
      ∧ (api_get_file reqNoSession wOnlyMaster).status = 500
      ∧ (api_get_file reqNoSession wOnlyMaster).status ≠ 401 := by
  refine ⟨rfl, ?_, ?_, ?_, ?_⟩ <;> decide

/-- C6 (amended): for the modelled endpoints every response is a JSON
envelope whose boolean success flag holds exactly on status 200 and
which carries an error message exactly otherwise, with statuses drawn
from the documented set (400 client input, 404 not‑found after
exhausting branches, 401 unauthorized, 500 server‑side, 200 success) —
except that `/api/get_file` reports a missing session as a 500
"GitHub client unavailable" error rather than 401 (`/api/repos` does
answer 401), and `/api/list_files` serves sessionless requests as a
200 success. -/
theorem C6_amended :
    (∀ (req : GetFileReq) (w : FileWorld),
        ((api_get_file req w).success = true ↔ (api_get_file req w).status = 200)
        ∧ ((api_get_file req w).errMsg.isSome = !(api_get_file req w).success)
        ∧ (api_get_file req w).status ∈ ([200, 400, 404, 500] : List Nat)
        ∧ (truthyOpt (effOwner req) = true → strip req.repo ≠ "" → strip req.path ≠ "" →
            req.pat = none →
              (api_get_file req w).status = 500 ∧ (api_get_file req w).success = false))
    ∧ (∀ (pat : Option String) (names : List String),
        ((api_repos pat names).success = true ↔ (api_repos pat names).status = 200)
        ∧ ((api_repos pat names).errMsg.isSome = !(api_repos pat names).success)
        ∧ (api_repos pat names).status ∈ ([200, 401, 500] : List Nat)
        ∧ (pat = none → (api_repos pat names).status = 401))
    ∧ (∀ (ownerArg sessionUser : Option String) (repoArg : String) (files : List String),
        ((api_list_files ownerArg sessionUser repoArg files).success = true ↔
            (api_list_files ownerArg sessionUser repoArg files).status = 200)
        ∧ ((api_list_files ownerArg sessionUser repoArg files).errMsg.isSome =
            !(api_list_files ownerArg sessionUser repoArg files).success)
        ∧ (api_list_files ownerArg sessionUser repoArg files).status ∈ ([200, 400] : List Nat)) := by
  refine ⟨fun req w => ⟨?_, ?_, ?_, ?_⟩, fun pat names => ?_, fun oa su ra fs => ?_⟩
  · cases hr : api_get_file req w <;>
      simp [GetFileResp.status, GetFileResp.success]
  · cases hr : api_get_file req w <;>
      simp [GetFileResp.status, GetFileResp.success, GetFileResp.errMsg]
  · cases hr : api_get_file req w <;>
      simp [GetFileResp.status]
  · intro h1 h2 h3 h4
    have hp : truthyOpt req.pat = false := by rw [h4]; rfl
    constructor <;>
      simp [api_get_file, h1, h2, h3, hp, GetFileResp.status, GetFileResp.success]
  · rcases pat with _ | p
    · simp [api_repos, ReposResp.status, ReposResp.success, ReposResp.errMsg]
    · by_cases hp : p = "" <;>
        simp [api_repos, hp, ReposResp.status, ReposResp.success, ReposResp.errMsg]
  · have hcases : api_list_files oa su ra fs = ListFilesResp.badRequest ∨
        api_list_files oa su ra fs = ListFilesResp.ok fs := by
      unfold api_list_files
      by_cases hcond : truthyOpt (match normB oa with | some o => some o | none => su) = false
          ∨ strip ra = ""
      · left; simp only [if_pos hcond]
      · right; simp only [if_neg hcond]
    rcases hcases with h | h <;>
      simp [h, ListFilesResp.status, ListFilesResp.success, ListFilesResp.errMsg]

/-- Witness for the amended C6: the counterexample request gets its
500, and a sessionless `/api/repos` call its 401. -/
theorem C6_amended_witness :
    (api_get_file reqNoSession wOnlyMaster).status = 500
      ∧ (api_repos none []).status = 401 := by
  refine ⟨?_, ?_⟩
  · exact ((C6_amended.1 reqNoSession wOnlyMaster).2.2.2
      (by decide) (by decide) (by decide) rfl).1
  · exact (C6_amended.2.1 none []).2.2.2 rfl

/-- C7: a bulk upload of N files returns exactly N per‑file results in
input order, each determined solely by that file's own PUT outcome
(so one file's failure neither aborts the loop nor changes the other
results), and — for distinct paths — every successfully uploaded file
is still present in the remote store afterwards (no rollback). -/
theorem C7_bulk_per_file (w : UploadWorld) (store : Store) (items : List (String × String)) :
    (bulk_upload w store items).1 =
        items.map (fun pb =>
          if w.putOk pb.1 then UploadResult.ok pb.1 (w.newSha pb.1)
          else UploadResult.err (w.putErrMsg pb.1))
      ∧ (bulk_upload w store items).1.length = items.length
      ∧ (items.Pairwise (fun a b => a.1 ≠ b.1) →
          ∀ pb ∈ items, w.putOk pb.1 = true →
            storeGet (bulk_upload w store items).2 pb.1 =
              some ⟨w.newSha pb.1, pb.2⟩) := by
  refine ⟨bulk_upload_results w items store, ?_,
    fun hpw pb hpb hok => bulk_upload_no_rollback w items store hpw pb hpb hok⟩
  rw [bulk_upload_results w items store, List.length_map]

/-- Witness for C7: three files of which the middle PUT fails; three
results in order, the failure carrying its message, and both
successful files still stored. -/
theorem C7_witness :
    (bulk_upload upW [] items3).1 =
        [UploadResult.ok "a.py" "sha-a.py", UploadResult.err "Validation Failed",
          UploadResult.ok "c.py" "sha-c.py"]
      ∧ (bulk_upload upW [] items3).1.length = 3
      ∧ storeGet (bulk_upload upW [] items3).2 "a.py" = some ⟨"sha-a.py", "print(1)"⟩
      ∧ storeGet (bulk_upload upW [] items3).2 "c.py" = some ⟨"sha-c.py", "print(3)"⟩ := by
  have h := C7_bulk_per_file upW [] items3
  refine ⟨?_, ?_, ?_, ?_⟩
  · rw [h.1]; decide
  · rw [h.2.1]; decide
  · have := h.2.2 (by decide) ("a.py", "print(1)") (by decide) (by decide)
    have hsha : upW.newSha "a.py" = "sha-a.py" := by decide
    rw [hsha] at this
    exact this
  · have := h.2.2 (by decide) ("c.py", "print(3)") (by decide) (by decide)
    have hsha : upW.newSha "c.py" = "sha-c.py" := by decide
    rw [hsha] at this
    exact this

/-- C8: creating a repository whose (owner, name) already exists —
`get_repo_info` returned 200/201 without raising — does not invoke
`gh.create_repo` (the attempted flag is `false`) and answers the
dedicated already‑exists outcome, distinguishable from every generic
creation error. -/
theorem C8_already_exists (pat : Option String) (nameArg : String) (w : CreateRepoWorld)
    (hpat : truthyOpt pat = true)
    (hname : strip nameArg ≠ "")
    (hraise : w.infoRaises = false)
    (hok : w.infoOk = true) :
    api_create_repo pat nameArg w = (CreateResp.alreadyExists (strip nameArg), false)
      ∧ (∀ m, CreateResp.alreadyExists (strip nameArg) ≠ CreateResp.createFailed m)
      ∧ (CreateResp.alreadyExists (strip nameArg)).success = false := by
  have hn : pat.isNone = false := by
    rcases pat with _ | p
    · simp [truthyOpt] at hpat
    · rfl
  refine ⟨?_, fun m => by simp, rfl⟩
  simp [api_create_repo, hn, hname, hpat, hraise, hok]

/-- Witness for C8 at a concrete token, name and world. -/
theorem C8_witness :
    api_create_repo (some "token123") "demo" crExists = (CreateResp.alreadyExists "demo", false)
      ∧ (api_create_repo (some "token123") "demo" crExists).2 = false := by
  have h := C8_already_exists (some "token123") "demo" crExists (by decide) (by decide) rfl rfl
  have hs : strip "demo" = "demo" := by decide
  rw [hs] at h
  exact ⟨h.1, by rw [h.1]⟩

/-- C9: `upload_file` first looks up the current revision sha — the PUT
payload's `sha` is exactly the (truthiness‑normalised) result of that
lookup — and a not‑found lookup is treated as "create new": the payload
carries no sha and the PUT still proceeds, creating the file on a
successful PUT and reporting the upstream error on a failed one. -/
theorem C9_sha_lookup (w : UploadWorld) (store : Store) (path contentBytes message : String) :
    ((upload_file w store path contentBytes message).1.sha
        = normB ((storeGet store path).map (fun f => f.sha)))
      ∧ (storeGet store path = none →
          (upload_file w store path contentBytes message).1.sha = none)
      ∧ (w.putOk path = true →
          (upload_file w store path contentBytes message).2.1
              = UploadResult.ok path (w.newSha path)
            ∧ (storeGet store path = none →
                storeGet (upload_file w store path contentBytes message).2.2 path
                  = some ⟨w.newSha path, contentBytes⟩))
      ∧ (w.putOk path = false →
          (upload_file w store path contentBytes message).2.1
            = UploadResult.err (w.putErrMsg path)) := by
  cases hput : w.putOk path
  · rw [upload_file_putOk_false w store path _ _ hput]
    refine ⟨rfl, ?_, ?_, fun _ => rfl⟩
    · intro h; rw [h]; rfl
    · intro h; exact Bool.noConfusion h
  · rw [upload_file_putOk_true w store path _ _ hput]
    refine ⟨rfl, ?_, fun _ => ⟨rfl, fun _ => storeGet_set_self store path _⟩, ?_⟩
    · intro h; rw [h]; rfl
    · intro h; exact Bool.noConfusion h

/-- Witness for C9: uploading to an empty store proceeds without a sha
and creates the file. -/
theorem C9_witness :
    (upload_file upW [] "new.txt" "data" "msg").1.sha = none
      ∧ (upload_file upW [] "new.txt" "data" "msg").2.1 = UploadResult.ok "new.txt" "sha-new.txt"
      ∧ storeGet (upload_file upW [] "new.txt" "data" "msg").2.2 "new.txt"
          = some ⟨"sha-new.txt", "data"⟩ := by
  have h := C9_sha_lookup upW [] "new.txt" "data" "msg"
  have hnone : storeGet ([] : Store) "new.txt" = none := rfl
  have hok : upW.putOk "new.txt" = true := by decide
  have hsha : upW.newSha "new.txt" = "sha-new.txt" := by decide
  refine ⟨h.2.1 hnone, ?_, ?_⟩
  · have := (h.2.2.1 hok).1
    rw [hsha] at this
    exact this
  · have := (h.2.2.1 hok).2 hnone
    rw [hsha] at this
    exact this

/-- C10: a structured fetch answering HTTP 200 whose body has no
`content` field (or a null one) makes `get_file_text` yield no text
(`None`), which `api_get_file` treats exactly like a failed attempt —
replacing such a result by an explicit error dict changes nothing about
resolution, so it continues to the next candidate branch instead of
succeeding with empty content. -/
theorem C10_no_content (decode : String → Option String) (r : ContentsResp)
    (h200 : r.status = 200) (hnc : r.content = none) :
    get_file_text decode r = GftResult.noneVal
      ∧ attemptResult (get_file_text decode r) = none
      ∧ ∀ (w : FileWorld) (b : String) (hint : Option String) (m : String), m ≠ "" →
          w.fetch b = GftResult.noneVal →
          resolveFile (setFetch w b (GftResult.err m)) hint = resolveFile w hint := by
  have h1 : get_file_text decode r = GftResult.noneVal := by
    simp [get_file_text, h200, hnc]
  refine ⟨h1, by rw [h1]; rfl, ?_⟩
  intro w b hint m hm hb
  apply resolveFile_congr
  · intro x
    by_cases hx : x = b
    · subst hx
      simp [setFetch, attemptResult, hm, hb]
    · simp [setFetch, hx]
  · rfl
  · rfl

/-- Witness for C10 at a concrete 200‑without‑content response and a
world whose `"main"` fetch yields `None`. -/
theorem C10_witness :
    get_file_text (fun _ => none) respNoContent = GftResult.noneVal
      ∧ resolveFile (setFetch wNoContent "main" (GftResult.err "Not Found")) (some "dev")
          = resolveFile wNoContent (some "dev") := by
  have h := C10_no_content (fun _ => none) respNoContent rfl rfl
  exact ⟨h.1, h.2.2 wNoContent "main" (some "dev") "Not Found" (by decide) (by decide)⟩

end GitSmart
